/- Verification development for `automate_building_dockerfiles.py`.

   Shallow embedding: the pure helper functions of the script
   (`extract_base_version`, `update_dockerfile_content`, `sanitize_image_tag`,
   `parse_test_results`, the response post-processing of
   `fix_dockerfile_with_llm`) are translated directly into Lean functions on
   `String` / `List Char`.  The Docker build/run engine and the HTTP repair
   service are opaque external collaborators; they are modelled as oracle
   functions bundled in an environment record, and the orchestrator `main`
   loop is translated into pure functions that additionally return a trace of
   observable events (file writes, build calls, repair calls, run calls). -/
import Mathlib

/-! ### Python character classes and small string helpers -/

/-- Python regex `\s` / default `str.strip` whitespace (ASCII):
space, tab, newline, carriage return, vertical tab (11), form feed (12). -/
def pySpace (c : Char) : Bool :=
  c = ' ' || c = '\t' || c = '\n' || c = '\r' || c.toNat = 11 || c.toNat = 12

/-- ASCII lower-casing, as Python `str.lower` acts on the characters in play. -/
def pyLower (c : Char) : Char :=
  if 'A' ≤ c && c ≤ 'Z' then Char.ofNat (c.toNat + 32) else c

/-- Python `l[-n:]`: the last `n` elements of a list (the whole list when shorter). -/
def lastN (n : Nat) (l : List α) : List α := l.drop (l.length - n)

/-- Python `s[:-5]`: the string without its final five characters
(empty when the string has at most five characters). -/
def pyDropLast5 (s : String) : String :=
  String.mk (s.toList.take (s.toList.length - 5))

/-- Python `str.strip` on a character list. -/
def pyStripL (l : List Char) : List Char :=
  ((l.dropWhile pySpace).reverse.dropWhile pySpace).reverse

/-- Python `str.strip` on a string. -/
def pyStrip (s : String) : String := String.mk (pyStripL s.toList)

/-- Python `version.replace(".", "")`. -/
def removeDots (s : String) : String := String.mk (s.toList.filter (fun c => c ≠ '.'))

/-- Value of a digit run, as Python `int` on the captured group. -/
def digitsToNat (l : List Char) : Nat := l.foldl (fun n c => 10 * n + (c.toNat - 48)) 0

/-! ### The regex `FROM\s+ubuntu:(\S+)` and its substitution

`extract_base_version` does `re.search(r'FROM\s+ubuntu:(\S+)', content)` and
returns group 1; `update_dockerfile_content` does
`re.sub(r'FROM\s+ubuntu:\S+', f'FROM ubuntu:{version}', content)`.
Because `ubuntu` starts with a non-space character and nothing follows the
greedy `\S+` in the pattern, the backtracking regex semantics coincide with
maximal munch: the pattern matches at a position exactly when the text there
is `FROM`, then a nonempty maximal whitespace run, then `ubuntu:`, then a
nonempty maximal non-whitespace token.  That maximal-munch matcher is
implemented below; searching and (global, non-overlapping) substitution scan
positions left to right as `re.search` / `re.sub` do. -/

/-- The literal `FROM` of the pattern. -/
def fromLit : List Char := ['F', 'R', 'O', 'M']

/-- The literal `ubuntu:` of the pattern. -/
def ubuntuLit : List Char := ['u', 'b', 'u', 'n', 't', 'u', ':']

/-- The fixed part `FROM ubuntu:` of the replacement text `f'FROM ubuntu:{version}'`. -/
def replLit : List Char := ['F', 'R', 'O', 'M', ' ', 'u', 'b', 'u', 'n', 't', 'u', ':']

/-- Strip an exact literal from the front of the text (regex literal matching). -/
def dropLit : List Char → List Char → Option (List Char)
  | [], s => some s
  | _ :: _, [] => none
  | p :: ps, c :: cs => if c = p then dropLit ps cs else none

/-- Match `FROM\s+ubuntu:(\S+)` at the start of `s`; on success return the
captured group together with the rest of the text after the match.
The `takeWhile pySpace ≠ []` test is the `\s+` requirement, the
`takeWhile (!pySpace) ≠ []` test the `\S+` requirement. -/
def matchAt (s : List Char) : Option (List Char × List Char) :=
  match dropLit fromLit s with
  | none => none
  | some r1 =>
    if r1.takeWhile pySpace = [] then none
    else
      match dropLit ubuntuLit (r1.dropWhile pySpace) with
      | none => none
      | some r3 =>
        if r3.takeWhile (fun c => !pySpace c) = [] then none
        else some (r3.takeWhile (fun c => !pySpace c), r3.dropWhile (fun c => !pySpace c))

/-- `re.search(r'FROM\s+ubuntu:(\S+)', s)`, returning group 1 of the leftmost match. -/
def searchVersion : List Char → Option (List Char)
  | [] => none
  | c :: cs =>
    match matchAt (c :: cs) with
    | some tr => some tr.1
    | none => searchVersion cs

/-- Fuel-indexed worker for `re.sub(r'FROM\s+ubuntu:\S+', replLit ++ v, s)`:
scan left to right, replacing each non-overlapping match and resuming after it. -/
def subVersionF (v : List Char) : Nat → List Char → List Char
  | _, [] => []
  | 0, s => s
  | fuel + 1, c :: cs =>
    match matchAt (c :: cs) with
    | some tr => replLit ++ v ++ subVersionF v fuel tr.2
    | none => c :: subVersionF v fuel cs

/-- `re.sub(r'FROM\s+ubuntu:\S+', 'FROM ubuntu:' ++ v, s)` (the fuel
`s.length` always suffices, see `subVersionF_congr`). -/
def subVersion (v s : List Char) : List Char := subVersionF v s.length s

/-- Source: `extract_base_version` (lines 141-144). -/
def extract_base_version (content : String) : Option String :=
  (searchVersion content.toList).map String.mk

/-- Source: `update_dockerfile_content` (lines 146-148). -/
def update_dockerfile_content (content version : String) : String :=
  String.mk (subVersion version.toList content.toList)

/-- Head condition: `l` is empty or its head fails `p`. -/
def headFails (p : Char → Bool) : List Char → Prop
  | [] => True
  | c :: _ => p c = false

/-- `l` is empty or starts with a whitespace character. -/
def spaceHead : List Char → Prop
  | [] => True
  | c :: _ => pySpace c = true

/-- All characters are whitespace. -/
def allSpace (l : List Char) : Prop := ∀ c ∈ l, pySpace c = true

/-- No character is whitespace. -/
def allNonSpace (l : List Char) : Prop := ∀ c ∈ l, pySpace c = false

/-- A text shaped like the tail of a match site: `FROM`, nonempty spaces,
`ubuntu:`, a nonempty non-space token, then whitespace-or-end. -/
def goodTail (X : List Char) : Prop :=
  ∃ w t r, X = fromLit ++ w ++ ubuntuLit ++ t ++ r ∧ w ≠ [] ∧ allSpace w ∧
    t ≠ [] ∧ allNonSpace t ∧ spaceHead r

/-! ### `sanitize_image_tag` -/

/-- The regex class `[^a-zA-Z0-9_.-]` of `sanitize_image_tag`, negated:
characters that are kept. -/
def keepTagChar (c : Char) : Bool :=
  ('a' ≤ c && c ≤ 'z') || ('A' ≤ c && c ≤ 'Z') || ('0' ≤ c && c ≤ '9') ||
    c = '_' || c = '.' || c = '-'

/-- `re.sub(r'[^a-zA-Z0-9_.-]', '_', tag)`: a single-character class, so the
substitution is a left-to-right per-character replacement. -/
def subTagChars : List Char → List Char
  | [] => []
  | c :: cs => (if keepTagChar c then c else '_') :: subTagChars cs

/-- Source: `sanitize_image_tag` (lines 150-153):
`re.sub(r'[^a-zA-Z0-9_.-]', '_', tag).lower()`. -/
def sanitize_image_tag (tag : String) : String :=
  String.mk ((subTagChars tag.toList).map pyLower)

/-- Modelled from the words of the spec, for comparison (claim C5):
"sanitization that maps every non-alphanumeric character of the id to an
underscore and lower-cases the result". -/
def sanitizeSpecClaim (tag : String) : String :=
  String.mk ((tag.toList.map (fun c =>
    if ('a' ≤ c && c ≤ 'z') || ('A' ≤ c && c ≤ 'Z') || ('0' ≤ c && c ≤ '9')
    then c else '_')).map pyLower)

/-! ### `parse_test_results` -/

/-- Literal part of the pattern `Tests Passed:\s*(\d+)`. -/
def passMarker : List Char := "Tests Passed:".toList

/-- Literal part of the pattern `Tests Failed:\s*(\d+)`. -/
def failMarker : List Char := "Tests Failed:".toList

/-- Match `lit` then `\s*(\d+)` at the start of `s`, returning the numeric
value of the captured digit run.  Greedy `\s*` followed by `\d+` coincides
with maximal munch (a backtracked-over space is never a digit). -/
def matchCountAt (lit s : List Char) : Option Nat :=
  match dropLit lit s with
  | none => none
  | some r1 =>
    if (r1.dropWhile pySpace).takeWhile Char.isDigit = [] then none
    else some (digitsToNat ((r1.dropWhile pySpace).takeWhile Char.isDigit))

/-- `re.search` for the pattern `lit ++ \s*(\d+)`: scan positions left to
right, return the first captured number. -/
def searchCount (lit : List Char) : List Char → Option Nat
  | [] => none
  | c :: cs =>
    match matchCountAt lit (c :: cs) with
    | some n => some n
    | none => searchCount lit cs

/-- Source: `parse_test_results` (lines 199-213).  The pass percentage is the
exact rational `(passed / total) * 100`, or 0 when the total is 0. -/
def parse_test_results (logs : String) : Nat × Nat × ℚ :=
  let passed := searchCount passMarker logs.toList
  let failed := searchCount failMarker logs.toList
  let passed_cases : Nat := match passed with | some n => n | none => 1
  let failed_cases : Nat := match failed with | some n => n | none => 0
  let total_cases : Nat := passed_cases + failed_cases
  let pass_percentage : ℚ :=
    if total_cases > 0 then ((passed_cases : ℚ) / (total_cases : ℚ)) * 100 else 0
  (passed_cases, failed_cases, pass_percentage)

/-! ### `fix_dockerfile_with_llm` response processing -/

/-- First occurrence of `delim` in `s` (Python `delim in s` / `s.split(delim, 1)`):
the text before and the text after the first occurrence. -/
def splitFirst (delim : List Char) : List Char → Option (List Char × List Char)
  | [] => if delim = [] then some ([], []) else none
  | c :: cs =>
    if delim.isPrefixOf (c :: cs) then some ([], (c :: cs).drop delim.length)
    else
      match splitFirst delim cs with
      | some pq => some (c :: pq.1, pq.2)
      | none => none

/-- The outcome of the HTTP exchange in `fix_dockerfile_with_llm`, as seen by
the response-processing code: an exception anywhere in the request/decoding
(caught by the surrounding `try`), or a decoded response with its transport
status code, whether the JSON carries an `error` field, and the (possibly
empty) `generated_text` payload. -/
inductive ApiResponse where
  | exc : ApiResponse
  | resp (status : Nat) (hasErrorField : Bool) (generatedText : String) : ApiResponse

/-- Source: `fix_dockerfile_with_llm` (lines 259-306), response handling: a
non-200 status, a service-reported `error` field, an empty stripped payload,
and any exception all yield `none`; otherwise the text after the delimiter
`"Fixed Dockerfile:"` is kept (if present) and trailing prose after `"Note:"`
and `"Note that"` is cut, stripping at each step.  The final
`startswith("FROM ")` check only logs a warning and changes nothing. -/
def fix_dockerfile_with_llm (response : ApiResponse) : Option String :=
  match response with
  | .exc => none
  | .resp status hasErrorField generatedText =>
    if status ≠ 200 then none
    else if hasErrorField then none
    else
      let g := pyStripL generatedText.toList
      if g = [] then none
      else
        let f1 := match splitFirst ("Fixed Dockerfile:".toList) g with
          | some pq => pyStripL pq.2
          | none => g
        let f2 := match splitFirst ("Note:".toList) f1 with
          | some pq => pyStripL pq.1
          | none => f1
        let f3 := match splitFirst ("Note that".toList) f2 with
          | some pq => pyStripL pq.1
          | none => f2
        some (String.mk f3)

/-! ### The orchestrator: `main` (lines 308-504) -/

/-- Result of one `build_image` call (lines 155-176): the tuple
`(success, error_message, build_logs)`; on success `error_message` is `None`,
on failure it is a string. -/
structure BuildRes where
  success : Bool
  errMsg : Option String
  logs : List String
deriving DecidableEq

/-- Observable side effects of processing one (bibcode, version) pair. -/
inductive Event where
  | writeDockerfile (name content : String) : Event
  | buildCall (attempt : Nat) (name tag content : String) (res : BuildRes) : Event
  | writeLog (name : String) (lines : List String) : Event
  | repairCall (content errorLogs : String) : Event
  | runCall (tag : String) : Event
deriving DecidableEq

/-- Oracles for the opaque collaborators used while processing one pair:
`build k content` is the `build_image` result for attempt `k` (0 = original,
k ≥ 1 = fixed variant k); `repair content errorLogs` is the repair service
seen from the orchestrator (the optional fixed Dockerfile text);
`run tag` is the `run_container` result `(run_success, output)`. -/
structure PairEnv where
  build : Nat → String → BuildRes
  repair : String → String → Option String
  run : String → Bool × String

/-- Source: `max_retries = 3` (line 393). -/
def maxRetries : Nat := 3

/-- State of the `while not success and retry_count < max_retries` loop after
it finishes, together with the events of its iterations. -/
structure LoopOut where
  events : List Event
  success : Bool
  errMsg : Option String
  buildLogs : List String
  retryCount : Nat

/-- Source: the retry loop (lines 392-447).  `fuel` is
`max_retries - retry_count`, so the entry condition
`retry_count < max_retries` is `fuel > 0`.  Each iteration joins the last 200
log lines, calls the repair client with the (original) updated Dockerfile
content, breaks when it returns no content (without incrementing
`retry_count`), otherwise writes the fixed variant, rebuilds under the same
image tag, writes the bounded fixed build log, and increments `retry_count`.
The `time.sleep(2)` has no observable effect here. -/
def retryLoop (env : PairEnv) (imageTag updatedContent version : String) :
    Nat → Nat → Bool → Option String → List String → LoopOut
  | rc, 0, success, err, logs => ⟨[], success, err, logs, rc⟩
  | rc, fuel + 1, success, err, logs =>
    if success then ⟨[], success, err, logs, rc⟩
    else
      let errorLogs := String.join (lastN 200 logs)
      match env.repair updatedContent errorLogs with
      | none => ⟨[Event.repairCall updatedContent errorLogs], false, err, logs, rc⟩
      | some fixed =>
        let fixedName := "Dockerfile_" ++ version ++ "_fixed_" ++ toString (rc + 1)
        let res := env.build (rc + 1) fixed
        let logName := "build_log_" ++ removeDots version ++ "_fixed_" ++
          toString (rc + 1) ++ ".txt"
        let rest := retryLoop env imageTag updatedContent version (rc + 1) fuel
          res.success res.errMsg res.logs
        ⟨Event.repairCall updatedContent errorLogs ::
          Event.writeDockerfile fixedName fixed ::
          Event.buildCall (rc + 1) fixedName imageTag fixed res ::
          Event.writeLog logName (lastN 200 res.logs) :: rest.events,
         rest.success, rest.errMsg, rest.buildLogs, rest.retryCount⟩

/-- One row of `results.csv` (`log_results`, lines 215-233, and the `data`
dicts of `main`). -/
structure OutcomeRecord where
  sNo : Nat
  bibcode : String
  baseVersion : String
  updatedVersion : String
  casesPassed : Nat
  casesFailed : Nat
  passPercentage : ℚ
  errorDetails : String
  modifications : String
deriving DecidableEq

/-- Source: body of the version loop of `main` (lines 347-504) for one
(bibcode, ubuntu_version) pair: derive the variant, skip (no record) when its
stripped content is empty, write it, build it under the sanitized image tag,
persist the bounded log, run the retry loop, then either run the container
and record the parsed results (or the run failure), or record the build
failure row.  Returns the event trace and the appended record (`none` exactly
when the pair is skipped).  File writes are modelled as always succeeding.
In the failure row the code stores `error_message[:-5]` and a note carrying
`retry_count`; `error_message` is a string whenever `success` is false, so
the `Option` default is never consumed. -/
def processPair (env : PairEnv) (bibcode baseVersion content version : String)
    (serial : Nat) : List Event × Option OutcomeRecord :=
  let updated := update_dockerfile_content content version
  if pyStrip updated = "" then ([], none)
  else
    let tempName := "Dockerfile_" ++ version
    let nod := removeDots version
    let imageTag := sanitize_image_tag bibcode ++ ":" ++ nod
    let res0 := env.build 0 updated
    let lo := retryLoop env imageTag updated version 0 maxRetries
      res0.success res0.errMsg res0.logs
    let preEvents := [Event.writeDockerfile tempName updated,
      Event.buildCall 0 tempName imageTag updated res0,
      Event.writeLog ("build_log_" ++ nod ++ ".txt") (lastN 200 res0.logs)]
    if lo.success then
      let ro := env.run imageTag
      if ro.1 then
        let tcr := parse_test_results ro.2
        (preEvents ++ lo.events ++ [Event.runCall imageTag],
         some ⟨serial, bibcode, baseVersion, version, tcr.1, tcr.2.1, tcr.2.2, "", ""⟩)
      else
        (preEvents ++ lo.events ++ [Event.runCall imageTag],
         some ⟨serial, bibcode, baseVersion, version, 0, 0, 0, ro.2, ""⟩)
    else
      (preEvents ++ lo.events,
       some ⟨serial, bibcode, baseVersion, version, 0, 0, 0,
         pyDropLast5 (lo.errMsg.getD ""),
         "Attempted fixes via LLM API, " ++ toString lo.retryCount ++ " retries"⟩)

/-- Source: `UBUNTU_VERSIONS` (line 94). -/
def UBUNTU_VERSIONS : List String :=
  ["14.04", "16.04", "18.04", "20.04", "22.04", "24.04"]

/-- Oracles for a whole run: one `PairEnv` per (bibcode, version) pair. -/
structure RunEnv where
  perPair : String → String → PairEnv

/-- The inner `for ubuntu_version in UBUNTU_VERSIONS` loop of `main`,
threading `serial_no`, which is incremented exactly when a record is
appended. -/
def processVersions (env : RunEnv) (bibcode baseV content : String) :
    List String → Nat → List OutcomeRecord × Nat
  | [], n => ([], n)
  | v :: vs, n =>
    let pr := processPair (env.perPair bibcode v) bibcode baseV content v n
    match pr.2 with
    | some record =>
      let rest := processVersions env bibcode baseV content vs (n + 1)
      (record :: rest.1, rest.2)
    | none => processVersions env bibcode baseV content vs n

/-- One iteration of `for bibcode in bibcode_dirs` (lines 323-345): skip the
whole artifact when its Dockerfile is missing or unreadable
(`content? = none`) or when no base version can be extracted; otherwise run
the whole version matrix. -/
def processArtifact (env : RunEnv) (bibcode : String) (content? : Option String)
    (serial : Nat) : List OutcomeRecord × Nat :=
  match content? with
  | none => ([], serial)
  | some content =>
    match extract_base_version content with
    | none => ([], serial)
    | some baseV => processVersions env bibcode baseV content UBUNTU_VERSIONS serial

/-- The driving loop of `main` over the artifact catalog, threading the
sequence number; `main` starts it with `serial_no = 1` (line 314). -/
def mainRun (env : RunEnv) :
    List (String × Option String) → Nat → List OutcomeRecord × Nat
  | [], n => ([], n)
  | (b, c?) :: rest, n =>
    let ra := processArtifact env b c? n
    let rb := mainRun env rest ra.2
    (ra.1 ++ rb.1, rb.2)

/-! ### Trace observations -/

/-- Is this event a repair-client call? -/
def Event.isRepair : Event → Bool
  | .repairCall _ _ => true
  | _ => false

/-- Number of repair-client calls in a trace. -/
def countRepairCalls (es : List Event) : Nat := (es.filter Event.isRepair).length

/-- The (content, errorLogs) argument pairs of the repair calls, in order. -/
def repairArgs : List Event → List (String × String)
  | [] => []
  | Event.repairCall c e :: rest => (c, e) :: repairArgs rest
  | _ :: rest => repairArgs rest

/-- The image tags of the build calls, in order. -/
def buildTags : List Event → List String
  | [] => []
  | Event.buildCall _ _ tag _ _ :: rest => tag :: buildTags rest
  | _ :: rest => buildTags rest

/-- Trace invariant: every repair call passes the fixed `updated` Dockerfile
text together with the joined last-200-line log of the most recent build
(the first state component tracks the logs of the latest build call). -/
def RepairLogsOK (updated : String) : List String → List Event → Prop
  | _, [] => True
  | logs, e :: rest =>
    match e with
    | Event.repairCall c el =>
      c = updated ∧ el = String.join (lastN 200 logs) ∧ RepairLogsOK updated logs rest
    | Event.buildCall _ _ _ _ res => RepairLogsOK updated res.logs rest
    | _ => RepairLogsOK updated logs rest

/-- Trace invariant: every persisted log file holds exactly the last 200
lines of the most recent build's captured log, hence at most 200 lines. -/
def LogWritesOK : List String → List Event → Prop
  | _, [] => True
  | logs, e :: rest =>
    match e with
    | Event.buildCall _ _ _ _ res => LogWritesOK res.logs rest
    | Event.writeLog _ lines =>
      lines = lastN 200 logs ∧ lines.length ≤ 200 ∧ LogWritesOK logs rest
    | _ => LogWritesOK logs rest

/-! ### Concrete environments for witnesses and counterexamples -/

/-- Scenario of spec §8 B: the original build fails (10-character error
message), the repair client returns no usable content. -/
def envB : PairEnv :=
  { build := fun _ _ => ⟨false, some "errorXYZ12", ["L1"]⟩
    repair := fun _ _ => none
    run := fun _ => (true, "") }

/-- Every build fails; the repair client always returns the text "FIXED". -/
def envR : PairEnv :=
  { build := fun _ _ => ⟨false, some "E", ["log"]⟩
    repair := fun _ _ => some "FIXED"
    run := fun _ => (true, "") }

/-- A pair environment where everything succeeds. -/
def envOK : PairEnv :=
  { build := fun _ _ => ⟨true, none, ["ok"]⟩
    repair := fun _ _ => none
    run := fun _ => (true, "Tests Passed: 2") }

/-- A run environment built from `envOK`. -/
def runEnvOK : RunEnv := { perPair := fun _ _ => envOK }

/-! ### Basic facts about the matcher -/

theorem lastN_length_le (n : Nat) (l : List α) : (lastN n l).length ≤ n := by
  simp [lastN]
  omega

theorem replLit_eq : replLit = fromLit ++ [' '] ++ ubuntuLit := rfl


theorem dropLit_eq_append {p : List Char} :
    ∀ {s r : List Char}, dropLit p s = some r → s = p ++ r := by
  induction p with
  | nil => intro s r h; simpa [dropLit] using h
  | cons a ps ih =>
    intro s r h
    cases s with
    | nil => simp [dropLit] at h
    | cons c cs =>
      by_cases hc : c = a
      · subst hc
        simp only [dropLit, if_pos rfl] at h
        simpa using ih h
      · simp [dropLit, hc] at h

theorem dropLit_self_append (p s : List Char) : dropLit p (p ++ s) = some s := by
  induction p with
  | nil => simp [dropLit]
  | cons a ps ih => simp [dropLit, ih]

theorem headFails_dropWhile (p : Char → Bool) : ∀ l : List Char, headFails p (l.dropWhile p)
  | [] => trivial
  | c :: cs => by
    by_cases h : p c = true
    · simpa [List.dropWhile, h] using headFails_dropWhile p cs
    · simp only [Bool.not_eq_true] at h
      simp [List.dropWhile, h, headFails]

theorem mem_takeWhile {p : Char → Bool} :
    ∀ {l : List Char} {c : Char}, c ∈ l.takeWhile p → p c = true := by
  intro l
  induction l with
  | nil => intro c h; simp [List.takeWhile] at h
  | cons a as ih =>
    intro c h
    by_cases ha : p a = true
    · simp only [List.takeWhile, ha] at h
      rcases List.mem_cons.1 h with h | h
      · subst h; exact ha
      · exact ih h
    · simp only [Bool.not_eq_true] at ha
      simp [List.takeWhile, ha] at h

theorem span_eq {p : Char → Bool} {w y : List Char}
    (hw : ∀ c ∈ w, p c = true) (hy : headFails p y) :
    (w ++ y).takeWhile p = w ∧ (w ++ y).dropWhile p = y := by
  induction w with
  | nil =>
    cases y with
    | nil => simp
    | cons c cs =>
      simp only [headFails] at hy
      simp [List.takeWhile, List.dropWhile, hy]
  | cons a as ih =>
    have ha : p a = true := hw a (by simp)
    have ih' := ih (fun c hc => hw c (by simp [hc]))
    simp [List.takeWhile, List.dropWhile, ha, ih'.1, ih'.2]

theorem matchAt_eq_some_of {s w t r : List Char}
    (hs : s = fromLit ++ w ++ ubuntuLit ++ t ++ r)
    (hw : w ≠ []) (hws : allSpace w) (ht : t ≠ []) (hts : allNonSpace t)
    (hr : spaceHead r) : matchAt s = some (t, r) := by
  have hhead : headFails pySpace (ubuntuLit ++ (t ++ r)) := by
    simp [ubuntuLit, headFails, pySpace]
  have hspan := span_eq (p := pySpace) hws hhead
  have hthead : headFails (fun c => !pySpace c) r := by
    cases r with
    | nil => trivial
    | cons c cs => simp_all [spaceHead, headFails]
  have htspan := span_eq (p := fun c => !pySpace c) (w := t) (y := r)
    (fun c hc => by simp [hts c hc]) hthead
  have hs' : s = fromLit ++ (w ++ (ubuntuLit ++ (t ++ r))) := by
    rw [hs]; simp [List.append_assoc]
  rw [hs']
  unfold matchAt
  rw [dropLit_self_append]
  simp only [hspan.1, hspan.2, if_neg hw, dropLit_self_append,
    htspan.1, htspan.2, if_neg ht]

/-- Elimination: a successful `matchAt` yields the decomposition into pieces. -/
theorem matchAt_eq_some_elim {s t r : List Char}
    (h : matchAt s = some (t, r)) :
    ∃ w, s = fromLit ++ w ++ ubuntuLit ++ t ++ r ∧ w ≠ [] ∧ allSpace w ∧
      t ≠ [] ∧ allNonSpace t ∧ spaceHead r := by
  unfold matchAt at h
  cases h1 : dropLit fromLit s with
  | none => simp only [h1] at h; exact Option.noConfusion h
  | some r1 =>
    simp only [h1] at h
    by_cases hw : r1.takeWhile pySpace = []
    · simp only [if_pos hw] at h; exact Option.noConfusion h
    · rw [if_neg hw] at h
      cases h2 : dropLit ubuntuLit (r1.dropWhile pySpace) with
      | none => simp only [h2] at h; exact Option.noConfusion h
      | some r3 =>
        simp only [h2] at h
        by_cases ht : r3.takeWhile (fun c => !pySpace c) = []
        · simp only [if_pos ht] at h; exact Option.noConfusion h
        · rw [if_neg ht] at h
          have e := Option.some.inj h
          have et : r3.takeWhile (fun c => !pySpace c) = t := congrArg Prod.fst e
          have er : r3.dropWhile (fun c => !pySpace c) = r := congrArg Prod.snd e
          subst et
          subst er
          have hs1 : s = fromLit ++ r1 := dropLit_eq_append h1
          have hr2 : r1.dropWhile pySpace = ubuntuLit ++ r3 := dropLit_eq_append h2
          refine ⟨r1.takeWhile pySpace, ?_, hw, fun c hc => mem_takeWhile hc, ht,
            fun c hc => by simpa using mem_takeWhile hc, ?_⟩
          · have hA : r1.takeWhile pySpace ++ (ubuntuLit ++
                (r3.takeWhile (fun c => !pySpace c) ++
                 r3.dropWhile (fun c => !pySpace c))) = r1 := by
              rw [List.takeWhile_append_dropWhile, ← hr2,
                List.takeWhile_append_dropWhile]
            have hB : s = fromLit ++ (r1.takeWhile pySpace ++ (ubuntuLit ++
                (r3.takeWhile (fun c => !pySpace c) ++
                 r3.dropWhile (fun c => !pySpace c)))) := by
              rw [hs1, hA]
            rw [hB]
            simp [List.append_assoc]
          · have hd := headFails_dropWhile (fun c => !pySpace c) r3
            cases hd3 : r3.dropWhile (fun c => !pySpace c) with
            | nil => trivial
            | cons c cs =>
              rw [hd3] at hd
              simp only [headFails] at hd
              simp only [spaceHead]
              simpa using hd

theorem matchAt_rest_lt {s : List Char} {tr : List Char × List Char}
    (h : matchAt s = some tr) : tr.2.length < s.length := by
  obtain ⟨w, hs, hw, -, ht, -, -⟩ := matchAt_eq_some_elim h
  have hwl : 1 ≤ w.length := by
    cases w with
    | nil => exact absurd rfl hw
    | cons a as => simp
  have htl : 1 ≤ tr.1.length := by
    cases h1 : tr.1 with
    | nil => exact absurd h1 ht
    | cons a as => simp [h1]
  rw [hs]
  simp [fromLit, ubuntuLit, List.length_append]
  omega

theorem matchAt_rest_le {s : List Char} {tr : List Char × List Char}
    (h : matchAt s = some tr) : tr.2.length ≤ s.length :=
  Nat.le_of_lt (matchAt_rest_lt h)

/-- The fuel of `subVersionF` is irrelevant as soon as it covers the length. -/
theorem subVersionF_congrAux (v : List Char) :
    ∀ (n : Nat) (s : List Char) (f₁ f₂ : Nat), s.length ≤ n → s.length ≤ f₁ →
      s.length ≤ f₂ → subVersionF v f₁ s = subVersionF v f₂ s := by
  intro n
  induction n with
  | zero =>
    intro s f₁ f₂ hn _ _
    have : s = [] := List.length_eq_zero.1 (Nat.le_zero.1 hn)
    subst this
    cases f₁ <;> cases f₂ <;> rfl
  | succ n ih =>
    intro s f₁ f₂ hn h₁ h₂
    cases s with
    | nil => cases f₁ <;> cases f₂ <;> rfl
    | cons c cs =>
      cases f₁ with
      | zero => simp at h₁
      | succ g₁ =>
        cases f₂ with
        | zero => simp at h₂
        | succ g₂ =>
          cases hm : matchAt (c :: cs) with
          | none =>
            simp only [subVersionF, hm]
            rw [ih cs g₁ g₂ (by simp at hn; omega) (by simp at h₁; omega)
              (by simp at h₂; omega)]
          | some tr =>
            have hlt : tr.2.length < (c :: cs).length := matchAt_rest_lt hm
            simp only [List.length_cons] at hlt hn h₁ h₂
            simp only [subVersionF, hm]
            rw [ih tr.2 g₁ g₂ (by omega) (by omega) (by omega)]

theorem subVersionF_eq {s : List Char} {f : Nat} (v : List Char) (hf : s.length ≤ f) :
    subVersionF v f s = subVersion v s :=
  subVersionF_congrAux v s.length s f s.length (le_refl _) hf (le_refl _)

theorem subVersion_nil (v : List Char) : subVersion v [] = [] := rfl

theorem subVersion_cons_some {c : Char} {cs : List Char} {tr : List Char × List Char}
    (v : List Char) (h : matchAt (c :: cs) = some tr) :
    subVersion v (c :: cs) = replLit ++ v ++ subVersion v tr.2 := by
  have hle : tr.2.length ≤ cs.length := by
    have := matchAt_rest_lt h
    simp at this
    omega
  show subVersionF v (cs.length + 1) (c :: cs) = _
  simp only [subVersionF, h]
  rw [subVersionF_eq v hle]

theorem subVersion_cons_none {c : Char} {cs : List Char}
    (v : List Char) (h : matchAt (c :: cs) = none) :
    subVersion v (c :: cs) = c :: subVersion v cs := by
  show subVersionF v (cs.length + 1) (c :: cs) = _
  simp only [subVersionF, h]
  rfl

theorem goodTail_isSome {X : List Char} (h : goodTail X) : (matchAt X).isSome := by
  obtain ⟨w, t, r, hX, hw, hws, ht, hts, hr⟩ := h
  rw [matchAt_eq_some_of hX hw hws ht hts hr]
  rfl

theorem matchAt_some_goodTail {s : List Char} {tr : List Char × List Char}
    (h : matchAt s = some tr) : goodTail s := by
  obtain ⟨w, hs, hw, hws, ht, hts, hr⟩ :=
    matchAt_eq_some_elim (s := s) (t := tr.1) (r := tr.2) (by simpa using h)
  exact ⟨w, tr.1, tr.2, hs, hw, hws, ht, hts, hr⟩

theorem spaceHead_subVersion (v : List Char) {s : List Char} (h : spaceHead s) :
    spaceHead (subVersion v s) := by
  cases s with
  | nil => exact trivial
  | cons c cs =>
    have hc : pySpace c = true := h
    have hm : matchAt (c :: cs) = none := by
      unfold matchAt
      have : dropLit fromLit (c :: cs) = none := by
        have hcF : c ≠ 'F' := by
          intro he; rw [he] at hc; simp [pySpace] at hc
        simp [fromLit, dropLit, hcF]
      rw [this]
    rw [subVersion_cons_none v hm]
    exact hc

theorem fromLit_nonspace : ∀ c ∈ fromLit, pySpace c = false := by decide

theorem F_not_mem_rom : 'F' ∉ (['R', 'O', 'M'] : List Char) := by decide

theorem F_not_mem_ubuntu : 'F' ∉ ubuntuLit := by decide

theorem false_of_heads_space {X m rest : List Char} {c : Char}
    (h1 : X = 'F' :: m) (h2 : X = c :: rest) (hc : pySpace c = true) : False := by
  rw [h1] at h2
  injection h2 with e _
  rw [← e] at hc
  exact absurd hc (by decide)

theorem false_of_heads_mem {X m rest : List Char} {c : Char} {l : List Char}
    (h1 : X = 'F' :: m) (h2 : X = c :: rest) (hc : c ∈ l) (hF : 'F' ∉ l) : False := by
  rw [h1] at h2
  injection h2 with e _
  rw [← e] at hc
  exact hF hc

theorem false_of_heads_ne {X m rest : List Char} {c : Char}
    (h1 : X = 'F' :: m) (h2 : X = c :: rest) (hc : c ≠ 'F') : False := by
  rw [h1] at h2
  injection h2 with e _
  exact hc e.symm

/-- If the text before a genuine match site ends with `FROM`, whitespace,
`ubuntu:` and a non-space run `y`, the pattern still matches somewhere in
`q ++ Y` for any match-site-shaped `Y`: the token becomes `y ++ "FROM"`. -/
theorem construct_token {q w y Y : List Char}
    (hq : q = fromLit ++ w ++ ubuntuLit ++ y)
    (hw : w ≠ []) (hws : allSpace w) (hys : allNonSpace y)
    (hY : goodTail Y) : (matchAt (q ++ Y)).isSome := by
  obtain ⟨wY, tY, rY, hYe, hwY, hwYs, htY, htYs, hrY⟩ := hY
  have hs : q ++ Y = fromLit ++ w ++ ubuntuLit ++ (y ++ fromLit) ++
      (wY ++ ubuntuLit ++ tY ++ rY) := by
    rw [hq, hYe]
    simp [List.append_assoc]
  have ht' : y ++ fromLit ≠ [] := by simp [fromLit]
  have hts' : allNonSpace (y ++ fromLit) := by
    intro c hc
    rcases List.mem_append.1 hc with h | h
    · exact hys c h
    · exact fromLit_nonspace c h
  have hr' : spaceHead (wY ++ ubuntuLit ++ tY ++ rY) := by
    cases wY with
    | nil => exact absurd rfl hwY
    | cons wc wcs => exact hwYs wc (by simp)
  rw [matchAt_eq_some_of hs hw hws ht' hts' hr']
  rfl

/-- Transfer of matches across replacement of one match-site-shaped tail by
another: if the pattern matches in `q ++ X` it matches in `q ++ Y`. -/
theorem matchAt_isSome_transfer {X Y : List Char} (q : List Char)
    (hX : goodTail X) (hY : goodTail Y)
    (h : (matchAt (q ++ X)).isSome) : (matchAt (q ++ Y)).isSome := by
  obtain ⟨wX, tX, rX, hXe, hwX, hwXs, htX, htXs, hrX⟩ := hX
  have hXF : ∃ m, X = 'F' :: m := by
    refine ⟨['R', 'O', 'M'] ++ wX ++ ubuntuLit ++ tX ++ rX, ?_⟩
    rw [hXe]
    simp [fromLit, List.append_assoc]
  obtain ⟨mX, hmX⟩ := hXF
  cases q with
  | nil =>
    simpa using goodTail_isSome hY
  | cons qh qt =>
    rw [Option.isSome_iff_exists] at h
    obtain ⟨tr, hm⟩ := h
    obtain ⟨t, r⟩ := tr
    obtain ⟨w, hE, hw, hws, ht, hts, hr⟩ := matchAt_eq_some_elim hm
    rw [List.append_eq_append_iff] at hE
    rcases hE with ⟨a, hPa, hXa⟩ | ⟨b, hqb, hrb⟩
    · -- the match ends inside `X`: `a` is the part of the match after `q`
      rw [List.append_eq_append_iff] at hPa
      rcases hPa with ⟨y, hqy, hty⟩ | ⟨x, hPx, hax⟩
      · -- the boundary falls inside (or at the start of) the token `t`
        have hys : allNonSpace y := fun c hc => hts c (by rw [hty]; exact List.mem_append_left _ hc)
        exact construct_token hqy hw hws hys hY
      · rw [List.append_eq_append_iff] at hPx
        rcases hPx with ⟨u, hqu, hux⟩ | ⟨z, hzq, hxz⟩
        · -- the boundary falls inside `ubuntu:` (or right after it)
          cases x with
          | nil =>
            have hu : u = ubuntuLit := by rw [hux]; simp
            have hq' : qh :: qt = fromLit ++ w ++ ubuntuLit ++ ([] : List Char) := by
              rw [hqu, hu]
              simp
            exact construct_token hq' hw hws (fun c hc => absurd hc (List.not_mem_nil c)) hY
          | cons f x' =>
            have hfm : f ∈ ubuntuLit := by rw [hux]; simp
            have hX2 : X = f :: (x' ++ t ++ r) := by
              rw [hXa, hax]
              simp [List.append_assoc]
            exact (false_of_heads_mem hmX hX2 hfm F_not_mem_ubuntu).elim
        · rw [List.append_eq_append_iff] at hzq
          rcases hzq with ⟨p, hqp, hwp⟩ | ⟨g, hfg, hzg⟩
          · -- the boundary falls inside the whitespace `w` (or right after it)
            cases z with
            | nil =>
              have hx : x = ubuntuLit := by rw [hxz]; simp
              have hX2 : X = 'u' :: (['b', 'u', 'n', 't', 'u', ':'] ++ t ++ r) := by
                rw [hXa, hax, hx]
                simp [ubuntuLit, List.append_assoc]
              exact (false_of_heads_ne hmX hX2 (by decide)).elim
            | cons zc z₂ =>
              have hzw : pySpace zc = true := hws zc (by rw [hwp]; simp)
              have hX2 : X = zc :: (z₂ ++ ubuntuLit ++ t ++ r) := by
                rw [hXa, hax, hxz]
                simp [List.append_assoc]
              exact (false_of_heads_space hmX hX2 hzw).elim
          · -- the boundary falls inside `FROM`
            cases g with
            | nil =>
              have hzw : z = w := by rw [hzg]; simp
              cases w with
              | nil => exact absurd rfl hw
              | cons wc wcs =>
                have hwc : pySpace wc = true := hws wc (by simp)
                have hX2 : X = wc :: (wcs ++ ubuntuLit ++ t ++ r) := by
                  rw [hXa, hax, hxz, hzw]
                  simp [List.append_assoc]
                exact (false_of_heads_space hmX hX2 hwc).elim
            | cons gc g₂ =>
              have hrom : (['R', 'O', 'M'] : List Char) = qt ++ (gc :: g₂) := by
                have h4 : fromLit = qh :: (qt ++ (gc :: g₂)) := hfg
                simpa [fromLit] using congrArg List.tail h4
              have hgc : gc ∈ (['R', 'O', 'M'] : List Char) := by rw [hrom]; simp
              have hX2 : X = gc :: (g₂ ++ w ++ ubuntuLit ++ t ++ r) := by
                rw [hXa, hax, hxz, hzg]
                simp [List.append_assoc]
              exact (false_of_heads_mem hmX hX2 hgc F_not_mem_rom).elim
    · -- the whole match lies inside `q`
      cases b with
      | nil =>
        simp only [List.nil_append] at hrb
        rw [hrb, hmX] at hr
        have hF : pySpace 'F' = true := hr
        exact absurd hF (by decide)
      | cons d b' =>
        have hs : (qh :: qt) ++ Y = fromLit ++ w ++ ubuntuLit ++ t ++ ((d :: b') ++ Y) := by
          rw [hqb]
          simp [List.append_assoc]
        have hr2 : spaceHead ((d :: b') ++ Y) := by
          rw [hrb] at hr
          exact (hr : pySpace d = true)
        rw [matchAt_eq_some_of hs hw hws ht hts hr2]
        rfl

theorem matchAt_nil : matchAt [] = none := rfl

theorem searchVersion_of_matchAt {s : List Char} {tr : List Char × List Char}
    (h : matchAt s = some tr) : searchVersion s = some tr.1 := by
  cases s with
  | nil => rw [matchAt_nil] at h; exact Option.noConfusion h
  | cons c cs => simp [searchVersion, h]

theorem searchVersion_cons_none {c : Char} {cs : List Char}
    (h : matchAt (c :: cs) = none) : searchVersion (c :: cs) = searchVersion cs := by
  simp [searchVersion, h]

theorem goodTail_replaced {v S : List Char} (hv : v ≠ []) (hvs : allNonSpace v)
    (hS : spaceHead S) : goodTail (replLit ++ v ++ S) := by
  refine ⟨[' '], v, S, ?_, by simp, ?_, hv, hvs, hS⟩
  · rw [replLit_eq]
  · intro ch hch
    simp at hch
    simp [hch, pySpace]

/-- Substituting in a suffix whose leftmost match is elsewhere cannot create a
match at an earlier position: failure of `matchAt` there is preserved. -/
theorem matchAt_none_sub (v : List Char) (hv : v ≠ []) (hvs : allNonSpace v) :
    ∀ (n : Nat) (cs : List Char), cs.length ≤ n → ∀ q : List Char,
      matchAt (q ++ cs) = none → matchAt (q ++ subVersion v cs) = none := by
  intro n
  induction n with
  | zero =>
    intro cs hn q h
    have : cs = [] := List.length_eq_zero.1 (Nat.le_zero.1 hn)
    subst this
    simpa [subVersion_nil] using h
  | succ n ih =>
    intro cs hn q h
    cases cs with
    | nil => simpa [subVersion_nil] using h
    | cons c cs' =>
      cases hm : matchAt (c :: cs') with
      | some tr =>
        rw [subVersion_cons_some v hm]
        obtain ⟨w0, hcs, hw0, hw0s, ht0, ht0s, hr0⟩ := matchAt_eq_some_elim hm
        have hgX : goodTail (c :: cs') := matchAt_some_goodTail hm
        have hgY : goodTail (replLit ++ v ++ subVersion v tr.2) :=
          goodTail_replaced hv hvs (spaceHead_subVersion v hr0)
        by_contra hne
        have hsome : (matchAt (q ++ (replLit ++ v ++ subVersion v tr.2))).isSome :=
          Option.ne_none_iff_isSome.1 hne
        have := matchAt_isSome_transfer q hgY hgX hsome
        rw [h] at this
        exact Option.noConfusion (Option.isSome_iff_exists.1 this).choose_spec
      | none =>
        rw [subVersion_cons_none v hm]
        rw [List.append_cons]
        refine ih cs' (by simp at hn; omega) (q ++ [c]) ?_
        rw [← List.append_cons]
        exact h

/-- Main search/substitute interaction: if the pattern occurs in `cs`, then
after substitution the leftmost captured group is exactly `v`. -/
theorem searchVersion_sub (v : List Char) (hv : v ≠ []) (hvs : allNonSpace v) :
    ∀ (n : Nat) (cs : List Char), cs.length ≤ n → (searchVersion cs).isSome →
      searchVersion (subVersion v cs) = some v := by
  intro n
  induction n with
  | zero =>
    intro cs hn h
    have : cs = [] := List.length_eq_zero.1 (Nat.le_zero.1 hn)
    subst this
    simp [searchVersion] at h
  | succ n ih =>
    intro cs hn h
    cases cs with
    | nil => simp [searchVersion] at h
    | cons c cs' =>
      cases hm : matchAt (c :: cs') with
      | some tr =>
        rw [subVersion_cons_some v hm]
        obtain ⟨w0, hcs, hw0, hw0s, ht0, ht0s, hr0⟩ := matchAt_eq_some_elim hm
        have hS : spaceHead (subVersion v tr.2) := spaceHead_subVersion v hr0
        have hmm : matchAt (replLit ++ v ++ subVersion v tr.2) =
            some (v, subVersion v tr.2) := by
          refine matchAt_eq_some_of (w := [' ']) ?_ (by simp) ?_ hv hvs hS
          · rw [replLit_eq]
          · intro ch hch
            simp at hch
            simp [hch, pySpace]
        exact searchVersion_of_matchAt hmm
      | none =>
        rw [subVersion_cons_none v hm]
        have h' : (searchVersion cs').isSome := by
          rwa [searchVersion_cons_none hm] at h
        have hnone : matchAt (([c] : List Char) ++ subVersion v cs') = none := by
          refine matchAt_none_sub v hv hvs cs'.length cs' (le_refl _) [c] ?_
          simpa using hm
        have hcons : matchAt (c :: subVersion v cs') = none := by simpa using hnone
        rw [searchVersion_cons_none hcons]
        exact ih cs' (by simp at hn; omega) h'

/-! ### Claim theorems -/

theorem percent_formula (p f : Nat) :
    (if p + f > 0 then ((p : ℚ) / ((p + f : Nat) : ℚ)) * 100 else 0) =
      (if p + f = 0 then (0 : ℚ) else (p : ℚ) / ((p : ℚ) + (f : ℚ)) * 100) := by
  rcases Nat.eq_zero_or_pos (p + f) with h | h
  · simp [h]
  · rw [if_pos h, if_neg (Nat.pos_iff_ne_zero.1 h)]
    push_cast
    rfl

/-- Claim C3 (confirmed): for every run-output text, the parser returns the
captured "Tests Passed: N" count or 1 when that pattern is absent, the
captured "Tests Failed: N" count or 0 when that pattern is absent (so absence
of both yields passed 1, failed 0, percentage 100), and a pass percentage of
passed/(passed+failed)×100, or 0 when passed+failed is 0. -/
theorem parse_test_results_spec (logs : String) :
    (parse_test_results logs).1 = (searchCount passMarker logs.toList).getD 1 ∧
    (parse_test_results logs).2.1 = (searchCount failMarker logs.toList).getD 0 ∧
    (parse_test_results logs).2.2 =
      (if (parse_test_results logs).1 + (parse_test_results logs).2.1 = 0 then (0 : ℚ)
       else ((parse_test_results logs).1 : ℚ) /
         (((parse_test_results logs).1 : ℚ) + ((parse_test_results logs).2.1 : ℚ)) * 100) ∧
    (searchCount passMarker logs.toList = none → searchCount failMarker logs.toList = none →
      parse_test_results logs = (1, 0, (100 : ℚ))) := by
  refine ⟨?_, ?_, ?_, ?_⟩
  · cases hp : searchCount passMarker logs.toList with
    | none =>
      have hp2 : searchCount passMarker logs.data = none := hp
      simp [parse_test_results, hp, hp2]
    | some k =>
      have hp2 : searchCount passMarker logs.data = some k := hp
      simp [parse_test_results, hp, hp2]
  · cases hf : searchCount failMarker logs.toList with
    | none =>
      have hf2 : searchCount failMarker logs.data = none := hf
      simp [parse_test_results, hf, hf2]
    | some k =>
      have hf2 : searchCount failMarker logs.data = some k := hf
      simp [parse_test_results, hf, hf2]
  · simp only [parse_test_results]
    cases hp : searchCount passMarker logs.toList <;>
      cases hf : searchCount failMarker logs.toList <;>
      exact percent_formula _ _
  · intro hp hf
    have hp2 : searchCount passMarker logs.data = none := hp
    have hf2 : searchCount failMarker logs.data = none := hf
    simp [parse_test_results, hp, hf, hp2, hf2]

/-- Witness for claim C3 at a text with neither marker. -/
theorem parse_test_results_spec_witness :
    searchCount passMarker ("hello world" : String).toList = none ∧
    searchCount failMarker ("hello world" : String).toList = none ∧
    parse_test_results "hello world" = (1, 0, (100 : ℚ)) :=
  ⟨by decide, by decide,
   (parse_test_results_spec "hello world").2.2.2 (by decide) (by decide)⟩

/-- Claim C7 (confirmed): the repair client never raises to its caller: an
exception during the exchange, a non-success transport status, a
service-reported error field, and an empty stripped payload all make
`fix_dockerfile_with_llm` return `none` (the function is total, so every
other input also returns normally). -/
theorem fix_dockerfile_with_llm_degrades (status : Nat) (hasErr : Bool) (gen : String) :
    fix_dockerfile_with_llm ApiResponse.exc = none ∧
    (status ≠ 200 → fix_dockerfile_with_llm (.resp status hasErr gen) = none) ∧
    (hasErr = true → fix_dockerfile_with_llm (.resp status hasErr gen) = none) ∧
    (pyStripL gen.toList = [] → fix_dockerfile_with_llm (.resp status hasErr gen) = none) := by
  refine ⟨rfl, ?_, ?_, ?_⟩
  · intro h
    simp [fix_dockerfile_with_llm, h]
  · intro h
    subst h
    by_cases h200 : status = 200 <;> simp [fix_dockerfile_with_llm, h200]
  · intro h
    have h2 : pyStripL gen.data = [] := h
    by_cases h200 : status = 200 <;> by_cases herr : hasErr <;>
      simp [fix_dockerfile_with_llm, h200, herr, h, h2]

/-- Witness for claim C7 at the three bad-response shapes. -/
theorem fix_dockerfile_with_llm_degrades_witness :
    (500 ≠ 200 ∧ fix_dockerfile_with_llm (.resp 500 false "FROM a") = none) ∧
    fix_dockerfile_with_llm (.resp 200 true "FROM a") = none ∧
    (pyStripL ("  " : String).toList = [] ∧
      fix_dockerfile_with_llm (.resp 200 false "  ") = none) :=
  ⟨⟨by decide, (fix_dockerfile_with_llm_degrades 500 false "FROM a").2.1 (by decide)⟩,
   (fix_dockerfile_with_llm_degrades 200 true "FROM a").2.2.1 rfl,
   ⟨by decide, (fix_dockerfile_with_llm_degrades 200 false "  ").2.2.2 (by decide)⟩⟩

/-- Claim C5 (counterexample): the sanitization does not map every
non-alphanumeric character of the id to an underscore: on the id "a.b" the
code keeps the dot (the class `[^a-zA-Z0-9_.-]` also keeps `_` and `-`),
while the claimed map yields "a_b". -/
theorem sanitize_image_tag_keeps_dot :
    sanitize_image_tag "a.b" = "a.b" ∧
    sanitizeSpecClaim "a.b" = "a_b" ∧
    ("a.b" : String) ≠ "a_b" ∧
    Char.isAlphanum '.' = false := by decide

theorem subTagChars_eq_map :
    ∀ l : List Char, subTagChars l = l.map (fun c => if keepTagChar c then c else '_')
  | [] => rfl
  | c :: cs => by simp [subTagChars, subTagChars_eq_map cs]

theorem buildTags_retryLoop (env : PairEnv) (tag u v : String) :
    ∀ (fuel rc : Nat) (s : Bool) (e : Option String) (logs : List String),
      ∀ t ∈ buildTags (retryLoop env tag u v rc fuel s e logs).events, t = tag := by
  intro fuel
  induction fuel with
  | zero =>
    intro rc s e logs t ht
    simp [retryLoop, buildTags] at ht
  | succ f ih =>
    intro rc s e logs t ht
    by_cases hs : s = true
    · simp [retryLoop, hs, buildTags] at ht
    · cases hr : env.repair u (String.join (lastN 200 logs)) with
      | none =>
        simp [retryLoop, hs, hr, buildTags] at ht
      | some fixed =>
        simp only [retryLoop, hs, hr, if_neg] at ht
        simp only [buildTags] at ht
        rcases List.mem_cons.1 ht with h | h
        · exact h
        · exact ih (rc + 1) _ _ _ t h

theorem buildTags_append :
    ∀ a b : List Event, buildTags (a ++ b) = buildTags a ++ buildTags b := by
  intro a
  induction a with
  | nil => intro b; simp [buildTags]
  | cons e rest ih => intro b; cases e <;> simp [buildTags, ih]

theorem eq_replicate_of_forall {α : Type} {l : List α} {x : α}
    (h : ∀ y ∈ l, y = x) : l = List.replicate l.length x := by
  induction l with
  | nil => rfl
  | cons a as ih =>
    have ha : a = x := h a (by simp)
    simp only [List.length_cons, List.replicate, ha]
    exact congrArg _ (ih fun y hy => h y (by simp [hy]))

/-- Shape of a non-skipped pair's trace: the three initial events (variant
write, original build, bounded log write), the retry-loop events, then either
a run call or nothing. -/
theorem processPair_events (env : PairEnv) (b bv c v : String) (n : Nat)
    (h : ¬ pyStrip (update_dockerfile_content c v) = "") :
    ∃ K, (processPair env b bv c v n).1 =
      [Event.writeDockerfile ("Dockerfile_" ++ v) (update_dockerfile_content c v),
       Event.buildCall 0 ("Dockerfile_" ++ v)
         (sanitize_image_tag b ++ ":" ++ removeDots v) (update_dockerfile_content c v)
         (env.build 0 (update_dockerfile_content c v)),
       Event.writeLog ("build_log_" ++ removeDots v ++ ".txt")
         (lastN 200 (env.build 0 (update_dockerfile_content c v)).logs)] ++
      (retryLoop env (sanitize_image_tag b ++ ":" ++ removeDots v)
        (update_dockerfile_content c v) v 0 maxRetries
        (env.build 0 (update_dockerfile_content c v)).success
        (env.build 0 (update_dockerfile_content c v)).errMsg
        (env.build 0 (update_dockerfile_content c v)).logs).events ++ K ∧
      (K = [] ∨ K = [Event.runCall (sanitize_image_tag b ++ ":" ++ removeDots v)]) := by
  simp only [processPair, if_neg h]
  split
  · split
    · exact ⟨[Event.runCall _], by simp, Or.inr rfl⟩
    · exact ⟨[Event.runCall _], by simp, Or.inr rfl⟩
  · exact ⟨[], by simp, Or.inl rfl⟩

/-- Claim C5 (amended, proved): the image tag is derived deterministically by
sanitization that maps every character other than an ASCII letter, digit,
underscore, dot or hyphen to an underscore and lower-cases the result, and
the tag is identical across the original build and every repaired-variant
rebuild of the same (artifact, version) pair. -/
theorem image_tag_sanitize_and_stable (env : PairEnv) (b bv c v : String) (n : Nat) :
    (sanitize_image_tag b).toList =
      (b.toList.map (fun ch => if keepTagChar ch then ch else '_')).map pyLower ∧
    buildTags (processPair env b bv c v n).1 =
      List.replicate (buildTags (processPair env b bv c v n).1).length
        (sanitize_image_tag b ++ ":" ++ removeDots v) := by
  constructor
  · show (subTagChars b.toList).map pyLower = _
    rw [subTagChars_eq_map]
  · refine eq_replicate_of_forall ?_
    intro t ht
    by_cases hstrip : pyStrip (update_dockerfile_content c v) = ""
    · simp [processPair, hstrip, buildTags] at ht
    · obtain ⟨K, hK, hKor⟩ := processPair_events env b bv c v n hstrip
      rw [hK, buildTags_append, buildTags_append] at ht
      rcases List.mem_append.1 ht with h1 | hKmem
      · rcases List.mem_append.1 h1 with h2 | h3
        · simp only [buildTags] at h2
          rcases List.mem_cons.1 h2 with h4 | h4
          · exact h4
          · simp at h4
        · exact buildTags_retryLoop env _ _ _ _ _ _ _ _ t h3
      · rcases hKor with hKe | hKe <;> simp [hKe, buildTags] at hKmem

theorem countRepairCalls_append (a b : List Event) :
    countRepairCalls (a ++ b) = countRepairCalls a + countRepairCalls b := by
  simp [countRepairCalls, List.filter_append]

theorem retryLoop_repair_count (env : PairEnv) (tag u v : String) :
    ∀ (fuel rc : Nat) (s : Bool) (e : Option String) (logs : List String),
      countRepairCalls (retryLoop env tag u v rc fuel s e logs).events ≤ fuel := by
  intro fuel
  induction fuel with
  | zero => intro rc s e logs; simp [retryLoop, countRepairCalls]
  | succ f ih =>
    intro rc s e logs
    by_cases hs : s = true
    · simp [retryLoop, hs, countRepairCalls]
    · cases hr : env.repair u (String.join (lastN 200 logs)) with
      | none => simp [retryLoop, hs, hr, countRepairCalls, Event.isRepair]
      | some fixed =>
        simp only [retryLoop, hs, hr, if_neg]
        have := ih (rc + 1) (env.build (rc + 1) fixed).success
          (env.build (rc + 1) fixed).errMsg (env.build (rc + 1) fixed).logs
        simp only [countRepairCalls, List.filter] at this ⊢
        simp [Event.isRepair]
        omega

/-- Claim C4 (confirmed): for every (artifact, version) pair, at most
`max_retries` = 3 repair-client calls occur, and exactly one outcome record
is appended exactly when the pair reaches a terminal state (it is skipped
before the state machine only when the substituted variant strips to empty). -/
theorem processPair_retry_bound_and_record (env : PairEnv) (b bv c v : String) (n : Nat) :
    countRepairCalls (processPair env b bv c v n).1 ≤ maxRetries ∧
    ((processPair env b bv c v n).2.isSome ↔
      pyStrip (update_dockerfile_content c v) ≠ "") := by
  constructor
  · by_cases hstrip : pyStrip (update_dockerfile_content c v) = ""
    · simp [processPair, hstrip, countRepairCalls]
    · obtain ⟨K, hK, hKor⟩ := processPair_events env b bv c v n hstrip
      rw [hK, countRepairCalls_append, countRepairCalls_append]
      have h1 : countRepairCalls [Event.writeDockerfile ("Dockerfile_" ++ v)
          (update_dockerfile_content c v),
        Event.buildCall 0 ("Dockerfile_" ++ v)
          (sanitize_image_tag b ++ ":" ++ removeDots v) (update_dockerfile_content c v)
          (env.build 0 (update_dockerfile_content c v)),
        Event.writeLog ("build_log_" ++ removeDots v ++ ".txt")
          (lastN 200 (env.build 0 (update_dockerfile_content c v)).logs)] = 0 := by
        simp [countRepairCalls, Event.isRepair]
      have h2 := retryLoop_repair_count env (sanitize_image_tag b ++ ":" ++ removeDots v)
        (update_dockerfile_content c v) v maxRetries 0
        (env.build 0 (update_dockerfile_content c v)).success
        (env.build 0 (update_dockerfile_content c v)).errMsg
        (env.build 0 (update_dockerfile_content c v)).logs
      have h3 : countRepairCalls K = 0 := by
        rcases hKor with hKe | hKe <;> simp [hKe, countRepairCalls, Event.isRepair]
      omega
  · by_cases hstrip : pyStrip (update_dockerfile_content c v) = ""
    · simp [processPair, hstrip]
    · simp only [processPair, if_neg hstrip]
      constructor
      · intro _; exact hstrip
      · intro _
        split
        · split <;> simp
        · simp

/-- Claim C1 (counterexample, spec §8 Scenario B): with `max_retries` = 3 and
a repair client returning no content on the first failure, exactly one repair
call is made, but the recorded Error Details field is the original build
error with its last five characters removed (not the full error text), and
the modifications note says "0 retries" (the counter is not incremented
before the break), not that 1 repair attempt was made. -/
theorem scenarioB_record_fields :
    countRepairCalls (processPair envB "b" "14.04" "FROM ubuntu:14.04" "20.04" 1).1 = 1 ∧
    ((processPair envB "b" "14.04" "FROM ubuntu:14.04" "20.04" 1).2).map
      OutcomeRecord.errorDetails = some "error" ∧
    ("error" : String) ≠ "errorXYZ12" ∧
    ((processPair envB "b" "14.04" "FROM ubuntu:14.04" "20.04" 1).2).map
      OutcomeRecord.modifications = some "Attempted fixes via LLM API, 0 retries" ∧
    ("Attempted fixes via LLM API, 0 retries" : String) ≠
      "Attempted fixes via LLM API, 1 retries" := by decide

/-- Claim C1 (amended, proved): if the repair client returns no usable
content on the first build failure with `max_retries` = 3, then exactly one
repair call is made, the pair terminates without further retries, the
recorded Error Details field equals the original build error text with its
last five characters removed, and the recorded modifications note states that
0 retries were attempted. -/
theorem processPair_repair_unavailable (env : PairEnv) (b bv c v : String) (n : Nat)
    (e0 : String) (l0 : List String)
    (h0 : env.build 0 (update_dockerfile_content c v) = ⟨false, some e0, l0⟩)
    (hrep : env.repair (update_dockerfile_content c v)
      (String.join (lastN 200 l0)) = none)
    (hne : pyStrip (update_dockerfile_content c v) ≠ "") :
    countRepairCalls (processPair env b bv c v n).1 = 1 ∧
    (processPair env b bv c v n).2 =
      some ⟨n, b, bv, v, 0, 0, 0, pyDropLast5 e0,
        "Attempted fixes via LLM API, 0 retries"⟩ := by
  have hloop : retryLoop env (sanitize_image_tag b ++ ":" ++ removeDots v)
      (update_dockerfile_content c v) v 0 maxRetries
      (env.build 0 (update_dockerfile_content c v)).success
      (env.build 0 (update_dockerfile_content c v)).errMsg
      (env.build 0 (update_dockerfile_content c v)).logs =
      ⟨[Event.repairCall (update_dockerfile_content c v) (String.join (lastN 200 l0))],
        false, some e0, l0, 0⟩ := by
    rw [h0]
    simp only [maxRetries, retryLoop, hrep]
    rfl
  constructor
  · simp only [processPair, if_neg hne, hloop]
    split
    · split <;>
        simp [countRepairCalls, List.filter, Event.isRepair]
    · simp [countRepairCalls, List.filter, Event.isRepair]
  · simp only [processPair, if_neg hne, hloop]
    norm_num
    decide

/-- Witness for claim C1 at the concrete Scenario B environment `envB`. -/
theorem processPair_repair_unavailable_witness :
    (envB.build 0 (update_dockerfile_content "FROM ubuntu:14.04" "20.04") =
        ⟨false, some "errorXYZ12", ["L1"]⟩ ∧
      envB.repair (update_dockerfile_content "FROM ubuntu:14.04" "20.04")
        (String.join (lastN 200 ["L1"])) = none ∧
      pyStrip (update_dockerfile_content "FROM ubuntu:14.04" "20.04") ≠ "") ∧
    countRepairCalls (processPair envB "b" "14.04" "FROM ubuntu:14.04" "20.04" 1).1 = 1 ∧
    (processPair envB "b" "14.04" "FROM ubuntu:14.04" "20.04" 1).2 =
      some ⟨1, "b", "14.04", "20.04", 0, 0, 0, pyDropLast5 "errorXYZ12",
        "Attempted fixes via LLM API, 0 retries"⟩ :=
  ⟨⟨by decide, by decide, by decide⟩,
   processPair_repair_unavailable envB "b" "14.04" "FROM ubuntu:14.04" "20.04" 1
     "errorXYZ12" ["L1"] (by decide) (by decide) (by decide)⟩

/-- Claim C2 (counterexample): with a repair client that returns the fixed
text "FIXED" and builds that keep failing, three repair calls occur and every
one of them — including iterations k = 2 and k = 3 — receives the original
updated variant "FROM ubuntu:20.04", not the most recently attempted
(fixed) Dockerfile text "FIXED". -/
theorem repair_always_gets_original :
    repairArgs (processPair envR "b" "14.04" "FROM ubuntu:14.04" "20.04" 1).1 =
      [("FROM ubuntu:20.04", "log"), ("FROM ubuntu:20.04", "log"),
       ("FROM ubuntu:20.04", "log")] ∧
    envR.repair "FROM ubuntu:20.04" "log" = some "FIXED" ∧
    ("FROM ubuntu:20.04" : String) ≠ "FIXED" := by decide

theorem retryLoop_repairLogs (env : PairEnv) (tag u v : String) :
    ∀ (fuel rc : Nat) (s : Bool) (e : Option String) (logs : List String)
      (K : List Event),
      RepairLogsOK u (retryLoop env tag u v rc fuel s e logs).buildLogs K →
      RepairLogsOK u logs ((retryLoop env tag u v rc fuel s e logs).events ++ K) := by
  intro fuel
  induction fuel with
  | zero =>
    intro rc s e logs K hK
    simpa [retryLoop] using hK
  | succ f ih =>
    intro rc s e logs K hK
    by_cases hs : s = true
    · simpa [retryLoop, hs] using hK
    · cases hr : env.repair u (String.join (lastN 200 logs)) with
      | none =>
        simp only [retryLoop, hs, hr, if_neg] at hK ⊢
        simp only [List.cons_append, List.nil_append, RepairLogsOK]
        exact ⟨trivial, trivial, hK⟩
      | some fixed =>
        simp only [retryLoop, hs, hr, if_neg] at hK ⊢
        simp only [List.cons_append, RepairLogsOK]
        exact ⟨trivial, trivial, ih (rc + 1) _ _ _ K hK⟩

/-- Claim C2 (amended, proved): on every repair iteration the orchestrator
sends the repair client the original updated Dockerfile text (variant 0, not
the most recently fixed variant) together with the joined last-200-line error
log of the most recent failed build. -/
theorem repair_calls_use_variant0_and_latest_logs (env : PairEnv)
    (b bv c v : String) (n : Nat) :
    RepairLogsOK (update_dockerfile_content c v) [] (processPair env b bv c v n).1 := by
  by_cases hstrip : pyStrip (update_dockerfile_content c v) = ""
  · simp [processPair, hstrip, RepairLogsOK]
  · obtain ⟨K, hK, hKor⟩ := processPair_events env b bv c v n hstrip
    rw [hK]
    simp only [List.cons_append, List.nil_append, RepairLogsOK]
    refine retryLoop_repairLogs env _ _ _ maxRetries 0 _ _ _ K ?_
    rcases hKor with hKe | hKe <;> simp [hKe, RepairLogsOK]

theorem retryLoop_logWrites (env : PairEnv) (tag u v : String) :
    ∀ (fuel rc : Nat) (s : Bool) (e : Option String) (logs : List String)
      (K : List Event),
      LogWritesOK (retryLoop env tag u v rc fuel s e logs).buildLogs K →
      LogWritesOK logs ((retryLoop env tag u v rc fuel s e logs).events ++ K) := by
  intro fuel
  induction fuel with
  | zero =>
    intro rc s e logs K hK
    simpa [retryLoop] using hK
  | succ f ih =>
    intro rc s e logs K hK
    by_cases hs : s = true
    · simpa [retryLoop, hs] using hK
    · cases hr : env.repair u (String.join (lastN 200 logs)) with
      | none =>
        simp only [retryLoop, hs, hr, if_neg] at hK ⊢
        simp only [List.cons_append, List.nil_append, LogWritesOK]
        exact hK
      | some fixed =>
        simp only [retryLoop, hs, hr, if_neg] at hK ⊢
        simp only [List.cons_append, LogWritesOK]
        exact ⟨trivial, lastN_length_le 200 _, ih (rc + 1) _ _ _ K hK⟩

/-- Claim C9 (confirmed): for every build attempt (original and each repaired
variant), regardless of its outcome, the persisted log file holds exactly the
last 200 lines of that build's captured log, hence at most 200 lines: the
persisted size is bounded independently of build verbosity. -/
theorem log_writes_bounded (env : PairEnv) (b bv c v : String) (n : Nat) :
    LogWritesOK [] (processPair env b bv c v n).1 := by
  by_cases hstrip : pyStrip (update_dockerfile_content c v) = ""
  · simp [processPair, hstrip, LogWritesOK]
  · obtain ⟨K, hK, hKor⟩ := processPair_events env b bv c v n hstrip
    rw [hK]
    simp only [List.cons_append, List.nil_append, LogWritesOK]
    refine ⟨trivial, lastN_length_le 200 _, ?_⟩
    refine retryLoop_logWrites env _ _ _ maxRetries 0 _ _ _ K ?_
    rcases hKor with hKe | hKe <;> simp [hKe, LogWritesOK]

theorem processPair_record_sNo (env : PairEnv) (b bv c v : String) (n : Nat) :
    ∀ r, (processPair env b bv c v n).2 = some r → r.sNo = n := by
  intro r h
  by_cases hstrip : pyStrip (update_dockerfile_content c v) = ""
  · simp [processPair, hstrip] at h
  · simp only [processPair, if_neg hstrip] at h
    split at h
    · split at h <;>
      · rw [← Option.some.inj h]
    · rw [← Option.some.inj h]

theorem range'_mem_le : ∀ (n s x : Nat), x ∈ List.range' s n → s ≤ x := by
  intro n
  induction n with
  | zero => intro s x hx; simp [List.range'] at hx
  | succ m ih =>
    intro s x hx
    simp only [List.range'] at hx
    rcases List.mem_cons.1 hx with h | h
    · omega
    · have := ih (s + 1) x h
      omega

theorem range'_pairwise_lt : ∀ (n s : Nat), List.Pairwise (· < ·) (List.range' s n) := by
  intro n
  induction n with
  | zero => intro s; simp [List.range']
  | succ m ih =>
    intro s
    simp only [List.range']
    refine List.Pairwise.cons ?_ (ih (s + 1))
    intro x hx
    have := range'_mem_le m (s + 1) x hx
    omega

theorem range'_split : ∀ (m s k : Nat),
    List.range' s (m + k) = List.range' s m ++ List.range' (s + m) k := by
  intro m
  induction m with
  | zero => intro s k; simp [List.range']
  | succ j ih =>
    intro s k
    have h1 : j + 1 + k = (j + k) + 1 := by omega
    rw [h1]
    simp only [List.range', List.cons_append]
    rw [ih (s + 1) k]
    have h2 : s + 1 + j = s + (j + 1) := by omega
    rw [h2]

theorem processVersions_sNo (env : RunEnv) (b bv c : String) :
    ∀ (vs : List String) (n : Nat),
      (processVersions env b bv c vs n).2 =
        n + (processVersions env b bv c vs n).1.length ∧
      (processVersions env b bv c vs n).1.map OutcomeRecord.sNo =
        List.range' n (processVersions env b bv c vs n).1.length := by
  intro vs
  induction vs with
  | nil => intro n; simp [processVersions, List.range']
  | cons v vs ih =>
    intro n
    simp only [processVersions]
    cases hp : (processPair (env.perPair b v) b bv c v n).2 with
    | none => exact ih n
    | some record =>
      have hsno : record.sNo = n := processPair_record_sNo (env.perPair b v) b bv c v n record hp
      obtain ⟨ih1, ih2⟩ := ih (n + 1)
      constructor
      · simp only [List.length_cons]
        omega
      · simp only [List.map_cons, List.length_cons, hsno, List.range', ih2]

theorem processArtifact_sNo (env : RunEnv) (b : String) (c? : Option String) (n : Nat) :
    (processArtifact env b c? n).2 = n + (processArtifact env b c? n).1.length ∧
    (processArtifact env b c? n).1.map OutcomeRecord.sNo =
      List.range' n (processArtifact env b c? n).1.length := by
  cases c? with
  | none => simp [processArtifact, List.range']
  | some c =>
    cases hb : extract_base_version c with
    | none => simp [processArtifact, hb, List.range']
    | some baseV =>
      simp only [processArtifact, hb]
      exact processVersions_sNo env b baseV c UBUNTU_VERSIONS n

theorem mainRun_sNo (env : RunEnv) :
    ∀ (arts : List (String × Option String)) (n : Nat),
      (mainRun env arts n).2 = n + (mainRun env arts n).1.length ∧
      (mainRun env arts n).1.map OutcomeRecord.sNo =
        List.range' n (mainRun env arts n).1.length := by
  intro arts
  induction arts with
  | nil => intro n; simp [mainRun, List.range']
  | cons a rest ih =>
    intro n
    obtain ⟨b, c?⟩ := a
    simp only [mainRun]
    obtain ⟨ha1, ha2⟩ := processArtifact_sNo env b c? n
    obtain ⟨hb1, hb2⟩ := ih (processArtifact env b c? n).2
    constructor
    · simp only [List.length_append]
      omega
    · rw [List.map_append, ha2, hb2, List.length_append, range'_split, ha1]

/-- Claim C6 (confirmed): across a full run started at `serial_no = 1`, the
sequence numbers of all appended outcome records are strictly increasing (and
in particular never reused), including across different artifacts. -/
theorem outcome_sNos_strictly_increasing (env : RunEnv)
    (arts : List (String × Option String)) :
    List.Pairwise (· < ·) ((mainRun env arts 1).1.map OutcomeRecord.sNo) := by
  rw [(mainRun_sNo env arts 1).2]
  exact range'_pairwise_lt _ 1

/-- Claim C8 (confirmed): an artifact whose base Dockerfile yields no
extractable base version contributes no outcome record for any target
version: the run over the catalog with that artifact present equals the run
with it removed, so processing continues with the next artifact, with the
same records and sequence numbers. -/
theorem skip_artifact_no_records (env : RunEnv)
    (pre post : List (String × Option String)) (b c : String)
    (h : extract_base_version c = none) (n : Nat) :
    mainRun env (pre ++ (b, some c) :: post) n = mainRun env (pre ++ post) n := by
  induction pre generalizing n with
  | nil => simp [mainRun, processArtifact, h]
  | cons a pre ih =>
    obtain ⟨b2, c2?⟩ := a
    simp only [List.cons_append, mainRun, List.append_eq]
    rw [ih]

/-- Witness for claim C8: the artifact "B" has no `FROM ubuntu:` directive,
is skipped, and the run equals the run without it. -/
theorem skip_artifact_no_records_witness :
    extract_base_version "no directive" = none ∧
    mainRun runEnvOK ([] ++ ("B", some "no directive") ::
        [("C", some "FROM ubuntu:18.04")]) 1 =
      mainRun runEnvOK ([] ++ [("C", some "FROM ubuntu:18.04")]) 1 :=
  ⟨by decide,
   skip_artifact_no_records runEnvOK [] [("C", some "FROM ubuntu:18.04")]
     "B" "no directive" (by decide) 1⟩

/-- Claim C10 (confirmed): for every Dockerfile text containing a
`FROM ubuntu:<token>` directive (`extract_base_version` succeeds) and every
nonempty whitespace-free target version string `v`, extracting the base
version after substituting `v` returns `v`:
`extract_base_version (update_dockerfile_content c v) = some v`. -/
theorem extract_update_roundtrip (c v : String) (hv : v ≠ "")
    (hvs : ∀ ch ∈ v.toList, pySpace ch = false)
    (hc : (extract_base_version c).isSome) :
    extract_base_version (update_dockerfile_content c v) = some v := by
  have hvl : v.toList ≠ [] := by
    intro hnil
    apply hv
    cases v with
    | mk data =>
      simp only [String.toList] at hnil
      simp [hnil]
  have h1 : (searchVersion c.toList).isSome := by
    simpa [extract_base_version] using hc
  have h2 := searchVersion_sub v.toList hvl hvs c.toList.length c.toList (le_refl _) h1
  show (searchVersion (update_dockerfile_content c v).toList).map String.mk = some v
  have h3 : (update_dockerfile_content c v).toList = subVersion v.toList c.toList := rfl
  rw [h3, h2]
  show some (String.mk v.toList) = some v
  cases v
  rfl

/-- Witness for claim C10 at a concrete Dockerfile and version. -/
theorem extract_update_roundtrip_witness :
    (("20.04" : String) ≠ "" ∧ (∀ ch ∈ ("20.04" : String).toList, pySpace ch = false) ∧
      (extract_base_version "FROM ubuntu:18.04\nRUN make").isSome) ∧
    extract_base_version
      (update_dockerfile_content "FROM ubuntu:18.04\nRUN make" "20.04") =
      some "20.04" :=
  ⟨⟨by decide, by decide, by decide⟩,
   extract_update_roundtrip "FROM ubuntu:18.04\nRUN make" "20.04"
     (by decide) (by decide) (by decide)⟩
